import Mathlib

set_option maxRecDepth 8000

/-!
Verification development for the jupyterlab-browser-ai core:
the tool-call emulation layer of `src/provider.ts` (ToolCallParser and
the stream reshaping in `doStream`), the prompt assembly of
`src/polyfill.ts` (`prependSystemPromptToMessages`), and the model
lifecycle/concurrency layer of `src/chrome-ai-file-summarizer.ts`
(`getOrCreateWebLLMModel`, `initializeWebLLMModel`,
`acquireModelExecutionSlot` with `createSerializedInferenceProxy`).

JavaScript values produced by `JSON.parse` are embedded as the `Json`
inductive; JavaScript operations that can throw (property access on
`null`, `JSON.parse` on malformed input) are embedded in the
`Except Unit` monad, and the `try/catch` of `parseToolCallResponse`
maps every such error to the "not a tool call" result.
-/

/-- Result of `JSON.parse`: a JavaScript value. A number keeps the parsed
decimal mantissa `m` and exponent `e` (value `m * 10 ^ e`) exactly. -/
inductive Json where
  | null : Json
  | bool (b : Bool) : Json
  | num (m : Int) (e : Int) : Json
  | str (s : String) : Json
  | arr (elements : List Json) : Json
  | obj (members : List (String × Json)) : Json

/-- Character equality, used throughout the char-level string model. -/
def charEq (a b : Char) : Bool := a == b

/-- Equality of character lists. -/
def charsEq : List Char → List Char → Bool
  | [], [] => true
  | a :: as, b :: bs => charEq a b && charsEq as bs
  | _, _ => false

/-- String equality via the underlying character data. -/
def strEq (a b : String) : Bool := charsEq a.data b.data

/-- JavaScript object property lookup (first binding wins; the JSON parser
below keeps at most one binding per key, with later duplicates
overwriting in place as `JSON.parse` does). -/
def lookupKey : List (String × Json) → String → Option Json
  | [], _ => none
  | (k, v) :: rest, key => if strEq k key then some v else lookupKey rest key

/-- Property assignment used by the JSON object parser: a duplicate key
keeps its original position but takes the new value, as in JavaScript. -/
def insertKeyJson : List (String × Json) → String → Json → List (String × Json)
  | [], k, v => [(k, v)]
  | (k', v') :: rest, k, v =>
    if strEq k' k then (k', v) :: rest else (k', v') :: insertKeyJson rest k v

/-- JSON grammar whitespace (the only characters `JSON.parse` skips). -/
def isJsonWs (c : Char) : Bool :=
  charEq c ' ' || charEq c '\t' || charEq c '\n' || charEq c '\r'

/-- JavaScript `\s` / `String.prototype.trim` whitespace set
(ASCII whitespace, NBSP, Ogham space, the U+2000 block, line and
paragraph separators, narrow and mathematical spaces, ideographic
space, BOM), compared by code point. -/
def isJsWs (c : Char) : Bool :=
  charEq c ' ' || charEq c '\t' || charEq c '\n' || charEq c '\u000B' ||
  charEq c '\u000C' || charEq c '\r' ||
  decide (c.toNat = 0xA0) || decide (c.toNat = 0x1680) ||
  (decide (0x2000 ≤ c.toNat) && decide (c.toNat ≤ 0x200A)) ||
  decide (c.toNat = 0x2028) || decide (c.toNat = 0x2029) ||
  decide (c.toNat = 0x202F) || decide (c.toNat = 0x205F) ||
  decide (c.toNat = 0x3000) || decide (c.toNat = 0xFEFF)

/-- Drop leading JavaScript whitespace. -/
def dropLeadingJsWs : List Char → List Char
  | [] => []
  | c :: rest => if isJsWs c then dropLeadingJsWs rest else c :: rest

/-- `String.prototype.trim`: strip whitespace from both ends. -/
def trimJsChars (cs : List Char) : List Char :=
  ((dropLeadingJsWs ((dropLeadingJsWs cs).reverse)).reverse)

/-- Does the second list start with the first (pattern) list? -/
def startsWithCh : List Char → List Char → Bool
  | [], _ => true
  | _ :: _, [] => false
  | p :: ps, c :: cs => charEq p c && startsWithCh ps cs

/-- The three-backtick fence delimiter. -/
def tick3 : List Char := ['`', '`', '`']

/-- The optional `json` tag after an opening fence. -/
def jsonTag : List Char := ['j', 's', 'o', 'n']

/-- Lazy capture of the fenced-block body: the shortest prefix whose
continuation is an optional newline followed by a closing fence. This is
the backtracking behavior of the capture group in the source regex
(a lazy any-character group, then an optional greedy newline, then the
closing backticks). -/
def captureFrom : List Char → Option (List Char)
  | [] => none
  | c :: rest =>
    if startsWithCh ('\n' :: tick3) (c :: rest) then some []
    else if startsWithCh tick3 (c :: rest) then some []
    else (captureFrom rest).map (fun t => c :: t)

/-- Leftmost match of the fenced-code-block regex of the source
(three backticks, optional `json` tag, greedy whitespace, lazily captured
body, optional newline, closing backticks), returning capture group 1.
A start position whose body never reaches a closing fence cannot be
rescued by backtracking into the consumed tag/whitespace (none of those
characters is a backtick), so the search resumes at the next position. -/
def fenceMatch : List Char → Option (List Char)
  | [] => none
  | c :: rest =>
    if startsWithCh tick3 (c :: rest) then
      let afterOpen := List.drop 3 (c :: rest)
      let afterTag := if startsWithCh jsonTag afterOpen then List.drop 4 afterOpen else afterOpen
      let content := dropLeadingJsWs afterTag
      match captureFrom content with
      | some cap => some cap
      | none => fenceMatch rest
    else fenceMatch rest

/-- Suffix starting at the first opening brace, if any. -/
def dropToBrace : List Char → Option (List Char)
  | [] => none
  | c :: rest => if charEq c '{' then some (c :: rest) else dropToBrace rest

/-- Truncate just after the last closing brace; `none` when there is no
closing brace at all. -/
def takeThroughLastClose : List Char → Option (List Char)
  | [] => none
  | c :: rest =>
    match takeThroughLastClose rest with
    | some t => some (c :: t)
    | none => if charEq c '}' then some [c] else none

/-- Leftmost-greedy match of the brace-spanning regex of the source: from
the first opening brace through the last closing brace after it. -/
def braceMatch (cs : List Char) : Option (List Char) :=
  match dropToBrace cs with
  | some (c :: rest) => (takeThroughLastClose rest).map (fun t => c :: t)
  | _ => none

/-- Candidate-extraction phase of `parseToolCallResponse`: trim, then
prefer the body of a fenced code block, then (when the candidate does not
already start with a brace) the first-to-last brace span. -/
def extractCandidateChars (text : List Char) : List Char :=
  let t0 := trimJsChars text
  let t1 :=
    match fenceMatch t0 with
    | some inner => trimJsChars inner
    | none => t0
  if startsWithCh ['{'] t1 then t1
  else
    match braceMatch t1 with
    | some m => m
    | none => t1

/-- Skip JSON grammar whitespace. -/
def skipJsonWs : List Char → List Char
  | [] => []
  | c :: rest => if isJsonWs c then skipJsonWs rest else c :: rest

/-- Hexadecimal digit value. -/
def hexVal (c : Char) : Option Nat :=
  if charEq c '0' then some 0 else if charEq c '1' then some 1
  else if charEq c '2' then some 2 else if charEq c '3' then some 3
  else if charEq c '4' then some 4 else if charEq c '5' then some 5
  else if charEq c '6' then some 6 else if charEq c '7' then some 7
  else if charEq c '8' then some 8 else if charEq c '9' then some 9
  else if charEq c 'a' || charEq c 'A' then some 10
  else if charEq c 'b' || charEq c 'B' then some 11
  else if charEq c 'c' || charEq c 'C' then some 12
  else if charEq c 'd' || charEq c 'D' then some 13
  else if charEq c 'e' || charEq c 'E' then some 14
  else if charEq c 'f' || charEq c 'F' then some 15
  else none

/-- Body of a JSON string literal after the opening quote: returns the
decoded characters and the remainder after the closing quote. A `\u`
escape decodes its four hex digits directly to a scalar value (surrogate
pairing of UTF-16 escapes is outside the scope of this model). -/
def parseJsonString : List Char → Option (List Char × List Char)
  | [] => none
  | c :: rest =>
    if charEq c '"' then some ([], rest)
    else if charEq c '\\' then
      match rest with
      | [] => none
      | e :: rest2 =>
        if charEq e '"' then (parseJsonString rest2).map (fun p => ('"' :: p.1, p.2))
        else if charEq e '\\' then (parseJsonString rest2).map (fun p => ('\\' :: p.1, p.2))
        else if charEq e '/' then (parseJsonString rest2).map (fun p => ('/' :: p.1, p.2))
        else if charEq e 'b' then (parseJsonString rest2).map (fun p => ('\x08' :: p.1, p.2))
        else if charEq e 'f' then (parseJsonString rest2).map (fun p => ('\x0C' :: p.1, p.2))
        else if charEq e 'n' then (parseJsonString rest2).map (fun p => ('\n' :: p.1, p.2))
        else if charEq e 'r' then (parseJsonString rest2).map (fun p => ('\r' :: p.1, p.2))
        else if charEq e 't' then (parseJsonString rest2).map (fun p => ('\t' :: p.1, p.2))
        else if charEq e 'u' then
          match rest2 with
          | h1 :: h2 :: h3 :: h4 :: rest3 =>
            match hexVal h1, hexVal h2, hexVal h3, hexVal h4 with
            | some v1, some v2, some v3, some v4 =>
              (parseJsonString rest3).map
                (fun p => (Char.ofNat (((v1 * 16 + v2) * 16 + v3) * 16 + v4) :: p.1, p.2))
            | _, _, _, _ => none
          | _ => none
        else none
    else if decide (c.toNat < 0x20) then none
    else (parseJsonString rest).map (fun p => (c :: p.1, p.2))

/-- Longest prefix of decimal digits. -/
def takeDigits : List Char → (List Char × List Char)
  | [] => ([], [])
  | c :: rest =>
    if c.isDigit then
      let p := takeDigits rest
      (c :: p.1, p.2)
    else ([], c :: rest)

/-- Numeric value of a digit list. -/
def natOfDigits (ds : List Char) : Nat :=
  ds.foldl (fun acc c => acc * 10 + (c.toNat - 48)) 0

/-- Optional fraction part of a JSON number: digits after a decimal
point; a point with no digit is a syntax error. -/
def parseFrac : List Char → Option (List Char × List Char)
  | '.' :: r =>
    match takeDigits r with
    | ([], _) => none
    | (ds, rest) => some (ds, rest)
  | cs => some ([], cs)

/-- Optional exponent part of a JSON number. -/
def parseExp : List Char → Option (Int × List Char)
  | [] => some (0, [])
  | c :: r =>
    if charEq c 'e' || charEq c 'E' then
      let sp : Int × List Char :=
        match r with
        | s :: r2 => if charEq s '+' then (1, r2) else if charEq s '-' then (-1, r2) else (1, r)
        | [] => (1, r)
      match takeDigits sp.2 with
      | ([], _) => none
      | (ds, rest) => some (sp.1 * (natOfDigits ds : Int), rest)
    else some (0, c :: r)

/-- JSON number literal: optional minus, integer part without a spurious
leading zero, optional fraction and exponent. -/
def parseNumber (cs : List Char) : Option (Json × List Char) := do
  let sgn := startsWithCh ['-'] cs
  let cs1 := if sgn then List.drop 1 cs else cs
  match takeDigits cs1 with
  | ([], _) => none
  | (d :: ds, cs2) =>
    if charEq d '0' && !ds.isEmpty then none
    else do
      let fp ← parseFrac cs2
      let ep ← parseExp fp.2
      let mag : Nat := natOfDigits (d :: ds ++ fp.1)
      let m : Int := if sgn then -(mag : Int) else (mag : Int)
      some (Json.num m (ep.1 - (fp.1.length : Int)), ep.2)

mutual

/-- Fueled recursive-descent JSON value parser (the fuel passed by
`jsonParseChars` always suffices: every recursive call follows at least
one consumed character and decrements the fuel by at most two per
character on any call path). -/
def parseValue : Nat → List Char → Option (Json × List Char)
  | 0, _ => none
  | Nat.succ fuel, cs0 =>
    let cs := skipJsonWs cs0
    match cs with
    | [] => none
    | c :: rest =>
      if charEq c '"' then (parseJsonString rest).map (fun p => (Json.str (String.mk p.1), p.2))
      else if charEq c '{' then
        let body := skipJsonWs rest
        if startsWithCh ['}'] body then some (Json.obj [], List.drop 1 body)
        else parseMembers fuel [] body
      else if charEq c '[' then
        let body := skipJsonWs rest
        if startsWithCh [']'] body then some (Json.arr [], List.drop 1 body)
        else parseElements fuel [] body
      else if startsWithCh ['n', 'u', 'l', 'l'] cs then some (Json.null, List.drop 4 cs)
      else if startsWithCh ['t', 'r', 'u', 'e'] cs then some (Json.bool true, List.drop 4 cs)
      else if startsWithCh ['f', 'a', 'l', 's', 'e'] cs then some (Json.bool false, List.drop 5 cs)
      else parseNumber cs

/-- Object members after the opening brace of a non-empty object
(leading whitespace already skipped). -/
def parseMembers : Nat → List (String × Json) → List Char → Option (Json × List Char)
  | 0, _, _ => none
  | Nat.succ fuel, acc, cs =>
    match cs with
    | [] => none
    | c :: rest =>
      if charEq c '"' then
        match parseJsonString rest with
        | none => none
        | some (key, r1) =>
          let r2 := skipJsonWs r1
          if startsWithCh [':'] r2 then
            match parseValue fuel (List.drop 1 r2) with
            | none => none
            | some (v, r3) =>
              let acc2 := insertKeyJson acc (String.mk key) v
              match skipJsonWs r3 with
              | [] => none
              | ch :: r5 =>
                if charEq ch ',' then parseMembers fuel acc2 (skipJsonWs r5)
                else if charEq ch '}' then some (Json.obj acc2, r5)
                else none
          else none
      else none

/-- Array elements after the opening bracket of a non-empty array. -/
def parseElements : Nat → List Json → List Char → Option (Json × List Char)
  | 0, _, _ => none
  | Nat.succ fuel, acc, cs =>
    match parseValue fuel cs with
    | none => none
    | some (v, r1) =>
      match skipJsonWs r1 with
      | [] => none
      | ch :: r3 =>
        if charEq ch ',' then parseElements fuel (acc ++ [v]) r3
        else if charEq ch ']' then some (Json.arr (acc ++ [v]), r3)
        else none

end

/-- `JSON.parse`: parse one JSON value and require only whitespace to
remain; `none` models the thrown `SyntaxError`. -/
def jsonParseChars (cs : List Char) : Option Json :=
  match parseValue (2 * cs.length + 4) cs with
  | some (v, rest) => if (skipJsonWs rest).isEmpty then some v else none
  | none => none

/-- JavaScript property access `base.key`: throws (`Except.error`) on a
`null` base, yields the binding on an object, and `undefined` (`none`)
on any other primitive or array for the property names used here. -/
def getField : Json → String → Except Unit (Option Json)
  | Json.null, _ => Except.error ()
  | Json.obj kvs, key => Except.ok (lookupKey kvs key)
  | _, _ => Except.ok none

/-- JavaScript truthiness of a `Json` value. -/
def jsTruthy : Json → Bool
  | Json.null => false
  | Json.bool b => b
  | Json.num m _ => !(m == 0)
  | Json.str s => !s.data.isEmpty
  | Json.arr _ => true
  | Json.obj _ => true

/-- Truthiness of a possibly-`undefined` value. -/
def jsTruthyOpt : Option Json → Bool
  | none => false
  | some v => jsTruthy v

/-- `typeof v === "string"` for a possibly-`undefined` value. -/
def isStringVal : Option Json → Bool
  | some (Json.str _) => true
  | _ => false

/-- The `hasRequiredFields` check of `parseToolCallResponse` for one
`output` element: `type === "function_call"`, truthy `callId`, truthy
`name`, and `arguments` of string runtime type, with JavaScript
short-circuit order and a thrown `TypeError` on a `null` element. -/
def validItem (item : Json) : Except Unit Bool :=
  match getField item "type" with
  | Except.error e => Except.error e
  | Except.ok t =>
    match t with
    | some (Json.str s) =>
      if strEq s "function_call" then
        match getField item "callId" with
        | Except.error e => Except.error e
        | Except.ok c =>
          if jsTruthyOpt c then
            match getField item "name" with
            | Except.error e => Except.error e
            | Except.ok n =>
              if jsTruthyOpt n then
                match getField item "arguments" with
                | Except.error e => Except.error e
                | Except.ok a => Except.ok (isStringVal a)
              else Except.ok false
          else Except.ok false
      else Except.ok false
    | _ => Except.ok false

/-- `parsed.output.every(hasRequiredFields)`: short-circuits on the first
invalid element; an element that throws propagates the exception. -/
def allValid : List Json → Except Unit Bool
  | [] => Except.ok true
  | item :: rest =>
    match validItem item with
    | Except.error e => Except.error e
    | Except.ok ok => if ok then allValid rest else Except.ok false

/-- Body of the `try` block of `parseToolCallResponse`: `JSON.parse` the
candidate, then accept exactly when `parsed.output` is an array (arrays
are always truthy, so `parsed.output && Array.isArray(parsed.output)`
holds exactly for array values) every element of which validates. -/
def parseBody (jsonText : List Char) : Except Unit (Option (List Json)) :=
  match jsonParseChars jsonText with
  | none => Except.error ()
  | some parsed =>
    match getField parsed "output" with
    | Except.error e => Except.error e
    | Except.ok out =>
      match out with
      | some (Json.arr items) =>
        match allValid items with
        | Except.error e => Except.error e
        | Except.ok ok => if ok then Except.ok (some items) else Except.ok none
      | _ => Except.ok none

/-- `ChromeAIToolCallingProvider.parseToolCallResponse`: extract a JSON
candidate (trim, fenced block, brace span), run the `try` block, and let
the `catch` turn any thrown error into the "not a tool call" result. -/
def parseToolCallResponse (text : String) : Option (List Json) :=
  match parseBody (extractCandidateChars text.data) with
  | Except.ok r => r
  | Except.error _ => none

/-- Character escaping of `JSON.stringify` for string values. -/
def escapeJsonChar (c : Char) : List Char :=
  if charEq c '"' then ['\\', '"']
  else if charEq c '\\' then ['\\', '\\']
  else if charEq c '\n' then ['\\', 'n']
  else if charEq c '\r' then ['\\', 'r']
  else if charEq c '\t' then ['\\', 't']
  else if charEq c '\x08' then ['\\', 'b']
  else if charEq c '\x0C' then ['\\', 'f']
  else if decide (c.toNat < 0x20) then
    ['\\', 'u', '0', '0',
     (if c.toNat / 16 < 10 then Char.ofNat (48 + c.toNat / 16) else Char.ofNat (87 + c.toNat / 16)),
     (if c.toNat % 16 < 10 then Char.ofNat (48 + c.toNat % 16) else Char.ofNat (87 + c.toNat % 16))]
  else [c]

/-- `JSON.stringify` of a string value. -/
def stringifyString (s : String) : String :=
  String.mk ('"' :: (s.data.flatMap escapeJsonChar) ++ ['"'])

/-- Exact decimal rendering of a parsed number (approximates the
JavaScript float-to-string conversion; never instantiated on numeric
content by the theorems below). -/
def numToString (m e : Int) : String :=
  if 0 ≤ e then toString (m * 10 ^ e.toNat)
  else
    let n := (-e).toNat
    let a := m.natAbs
    let fps := toString (a % 10 ^ n)
    (if m < 0 then "-" else "") ++ toString (a / 10 ^ n) ++ "." ++
      String.mk (List.replicate (n - fps.length) '0') ++ fps

/-- Comma-join for `JSON.stringify` of arrays and objects. -/
def joinComma : List String → String
  | [] => ""
  | [s] => s
  | s :: rest => s ++ "," ++ joinComma rest

/-- `JSON.stringify` on a `Json` value (recursing into array elements
and object members). -/
def jsonStringify : Json → String
  | Json.null => "null"
  | Json.bool b => if b then "true" else "false"
  | Json.num m e => numToString m e
  | Json.str s => stringifyString s
  | Json.arr xs =>
    "[" ++ joinComma (xs.attach.map (fun x => jsonStringify x.1)) ++ "]"
  | Json.obj kvs =>
    "\x7b" ++ joinComma (kvs.attach.map (fun kv => stringifyString kv.1.1 ++ ":" ++ jsonStringify kv.1.2)) ++ "\x7d"
decreasing_by
  · simp only [Json.arr.sizeOf_spec]
    have h := List.sizeOf_lt_of_mem x.2
    omega
  · simp only [Json.obj.sizeOf_spec]
    have h := List.sizeOf_lt_of_mem kv.2
    have h2 : sizeOf kv.1.2 < sizeOf kv.1 := by
      rcases kv with ⟨⟨k, v⟩, hm⟩
      simp
    omega

/-- A `LanguageModelMessage` of the Prompt API: a role and a content
value that is either a plain string or structured content. -/
structure LMMessage where
  role : String
  content : Json

/-- Content serialization of `prependSystemPromptToMessages`: string
content is used as is, anything else goes through `JSON.stringify`. -/
def contentText (c : Json) : String :=
  match c with
  | Json.str s => s
  | c => jsonStringify c

/-- `Array.prototype.findIndex` (as an `Option`-valued index). -/
def findIndex (p : α → Bool) : List α → Option Nat
  | [] => none
  | x :: xs => if p x then some 0 else (findIndex p xs).map (· + 1)

/-- `prependSystemPromptToMessages` of `src/polyfill.ts`: copy the
message list, prepend the system prompt (with a blank-line separator) to
the content of the first user-role message, or insert a new leading user
message holding only the prompt when no user message exists. -/
def prependSystemPromptToMessages (messages : List LMMessage) (systemPrompt : String) :
    List LMMessage :=
  match findIndex (fun p => strEq p.role "user") messages with
  | some i =>
    match messages[i]? with
    | some m =>
      messages.set i { m with content := Json.str (systemPrompt ++ "\n\n" ++ contentText m.content) }
    | none => messages
  | none => { role := "user", content := Json.str systemPrompt } :: messages

/-- `LanguageModelV2StreamPart` as consumed and produced by the stream
transform of `doStream`. Identifiers and payloads of the synthesized
tool events carry the JavaScript values read off the parsed call objects
(`none` models `undefined`); every event kind the transform does not
inspect is a passthrough event. -/
inductive StreamPart where
  | textStart (id : String)
  | textDelta (id : String) (delta : String)
  | textEnd (id : String)
  | toolInputStart (id : Option Json) (toolName : Option Json)
  | toolInputDelta (id : Option Json) (delta : Option Json)
  | toolInputEnd (id : Option Json)
  | toolCall (toolCallId : Option Json) (toolName : Option Json) (input : Option Json)
  | passthrough (tag : String)

/-- Is this one of the three text-segment event kinds the transform
buffers and rewrites? -/
def isTextPart : StreamPart → Bool
  | StreamPart.textStart _ => true
  | StreamPart.textDelta _ _ => true
  | StreamPart.textEnd _ => true
  | _ => false

/-- Property read `call.key` on a parsed tool-call object (validated
items are always non-null objects, so this access never throws). -/
def jfieldD (j : Json) (key : String) : Option Json :=
  match j with
  | Json.obj kvs => lookupKey kvs key
  | _ => none

/-- The four events `doStream` enqueues for one parsed call:
tool-input-start, tool-input-delta with the full arguments string,
tool-input-end, then the tool-call itself, all under the call's own id. -/
def emitToolCallParts (call : Json) : List StreamPart :=
  [StreamPart.toolInputStart (jfieldD call "callId") (jfieldD call "name"),
   StreamPart.toolInputDelta (jfieldD call "callId") (jfieldD call "arguments"),
   StreamPart.toolInputEnd (jfieldD call "callId"),
   StreamPart.toolCall (jfieldD call "callId") (jfieldD call "name") (jfieldD call "arguments")]

/-- Mutable state of the `doStream` transform closure: the buffered text
and the identifier of the last opened text segment. -/
structure ReshapeState where
  bufferedText : String
  textId : Option String

/-- One `transform(chunk, controller)` call of the `TransformStream` in
`doStream`: text-start records the id and resets the buffer, text-delta
buffers, text-end parses the buffer and emits either the tool-call event
runs or the coalesced text segment, and every other chunk is forwarded
unchanged. The guard on the text path is the JavaScript truthiness test
`if (textId)`: both a `null` identifier and the falsy empty string skip
the emission entirely. Returns the new state and the enqueued chunks,
in order. -/
def transformChunk (st : ReshapeState) (chunk : StreamPart) : ReshapeState × List StreamPart :=
  match chunk with
  | StreamPart.textStart id => ({ bufferedText := "", textId := some id }, [])
  | StreamPart.textDelta _ delta =>
    ({ st with bufferedText := st.bufferedText ++ delta }, [])
  | StreamPart.textEnd _ =>
    match parseToolCallResponse st.bufferedText with
    | some calls => (st, calls.flatMap emitToolCallParts)
    | none =>
      match st.textId with
      | some id =>
        if id.data.isEmpty then (st, [])
        else
          (st, [StreamPart.textStart id, StreamPart.textDelta id st.bufferedText,
                StreamPart.textEnd id])
      | none => (st, [])
  | c => (st, [c])

/-- Run the transform over a chunk sequence, concatenating the output. -/
def reshapeGo (st : ReshapeState) : List StreamPart → List StreamPart
  | [] => []
  | c :: cs =>
    let p := transformChunk st c
    p.2 ++ reshapeGo p.1 cs

/-- The reshaped stream of `doStream`: the transform applied from the
initial closure state (empty buffer, no segment id). -/
def reshape (chunks : List StreamPart) : List StreamPart :=
  reshapeGo { bufferedText := "", textId := none } chunks

/-- Lookup in a string-keyed association list (a `Map<string, T>`). -/
def lookupStrNat : List (String × Nat) → String → Option Nat
  | [], _ => none
  | (k, v) :: rest, key => if strEq k key then some v else lookupStrNat rest key

/-- `Map.delete` on a string-keyed association list. -/
def eraseKeyStr : List (String × Nat) → String → List (String × Nat)
  | [], _ => []
  | (k, v) :: rest, key => if strEq k key then eraseKeyStr rest key else (k, v) :: eraseKeyStr rest key

/-- Module state of `src/chrome-ai-file-summarizer.ts`: the
`webLLMModels` handle cache and the `webLLMModelInitialization` pending
promise map, together with counters identifying each constructed handle
(`nextHandleId` counts `webLLM(...)` constructions) and each started
initialization promise (`nextInitId`). -/
structure WebLLMState where
  webLLMModels : List (String × Nat)
  webLLMModelInitialization : List (String × Nat)
  nextHandleId : Nat
  nextInitId : Nat

/-- The empty module state at load time. -/
def webLLMInit : WebLLMState :=
  { webLLMModels := [], webLLMModelInitialization := [], nextHandleId := 0, nextInitId := 0 }

/-- `getOrCreateWebLLMModel`: return the cached handle when present,
else construct one `webLLM(...)` instance, wrap it in the serialized
inference proxy, cache it, and return it. The function body has no
suspension point, so each call is one atomic step of the event loop. -/
def getOrCreateWebLLMModel (s : WebLLMState) (modelName : String) : WebLLMState × Nat :=
  match lookupStrNat s.webLLMModels modelName with
  | some h => (s, h)
  | none =>
    let handle := s.nextHandleId
    ({ s with webLLMModels := (modelName, handle) :: s.webLLMModels,
              nextHandleId := s.nextHandleId + 1 }, handle)

/-- `initializeWebLLMModel`: return the pending initialization promise
when one exists, else obtain the handle, start one initialization
promise, and record it. The body up to and including the
`webLLMModelInitialization.set` runs synchronously (the async closure
suspends at its first await), so each call is one atomic step; the
`finally` that removes the entry is the separate `settleWebLLMInitialization` step. -/
def initializeWebLLMModel (s : WebLLMState) (modelName : String) : WebLLMState × Nat :=
  match lookupStrNat s.webLLMModelInitialization modelName with
  | some p => (s, p)
  | none =>
    let s1 := (getOrCreateWebLLMModel s modelName).1
    let p := s1.nextInitId
    ({ s1 with webLLMModelInitialization := (modelName, p) :: s1.webLLMModelInitialization,
               nextInitId := s1.nextInitId + 1 }, p)

/-- The `finally` of the initialization promise: remove the pending
entry once the promise settles (fulfilled or rejected). -/
def settleWebLLMInitialization (s : WebLLMState) (modelName : String) : WebLLMState :=
  { s with webLLMModelInitialization := eraseKeyStr s.webLLMModelInitialization modelName }

/-- Event-loop steps touching the model cache: a `getOrCreateWebLLMModel`
call, an `initializeWebLLMModel` call, and the settling of an
initialization promise. -/
inductive CacheOp where
  | getModel (name : String)
  | initModel (name : String)
  | settleInit (name : String)

/-- One cache step, returning the value handed to the caller (the handle
for `getModel`, the promise for `initModel`). -/
def cacheStep (s : WebLLMState) : CacheOp → WebLLMState × Option Nat
  | CacheOp.getModel name =>
    let p := getOrCreateWebLLMModel s name
    (p.1, some p.2)
  | CacheOp.initModel name =>
    let p := initializeWebLLMModel s name
    (p.1, some p.2)
  | CacheOp.settleInit name => (settleWebLLMInitialization s name, none)

/-- Run a sequence of cache steps, logging each step's returned value. -/
def cacheRun (s : WebLLMState) : List CacheOp → WebLLMState × List (Option Nat)
  | [] => (s, [])
  | op :: ops =>
    let p := cacheStep s op
    let q := cacheRun p.1 ops
    (q.1, p.2 :: q.2)

/-- Membership in a list of acquisition indices. -/
def memNat : List Nat → Nat → Bool
  | [], _ => false
  | x :: rest, i => x == i || memNat rest i

/-- One acquisition made by `acquireModelExecutionSlot`: the model object
it serializes on and the acquisition (if any) whose `queueTail` promise
it took from `modelExecutionQueue` as its `previous` (`none` models the
already-resolved `Promise.resolve()` fallback). Both fields are fixed at
acquisition time; the mutable closure state lives in the sets below. -/
structure Acq where
  model : Nat
  prev : Option Nat

/-- State of the serializer: all acquisitions ever made, in call order;
the `modelExecutionQueue` map from model to the acquisition whose
`queueTail` promise is currently stored; the set of acquisitions whose
`await previous` has resumed (the caller holds the slot and owns the
release closure); and the set whose release closure has run (resolving
their `current` promise). -/
structure SerializerState where
  acqs : List Acq
  queueTail : List (Nat × Nat)
  granted : List Nat
  released : List Nat

/-- Lookup in a `Nat`-keyed association list (the `WeakMap`). -/
def lookupNatKey : List (Nat × Nat) → Nat → Option Nat
  | [], _ => none
  | (k, v) :: rest, key => if k == key then some v else lookupNatKey rest key

/-- `WeakMap.set` (replace or add). -/
def setNatKey : List (Nat × Nat) → Nat → Nat → List (Nat × Nat)
  | [], key, v => [(key, v)]
  | (k, w) :: rest, key, v =>
    if k == key then (k, v) :: rest else (k, w) :: setNatKey rest key v

/-- `WeakMap.delete`. -/
def eraseNatKey : List (Nat × Nat) → Nat → List (Nat × Nat)
  | [], _ => []
  | (k, v) :: rest, key => if k == key then eraseNatKey rest key else (k, v) :: eraseNatKey rest key

/-- The serializer state before any acquisition. -/
def serInit : SerializerState := { acqs := [], queueTail := [], granted := [], released := [] }

/-- Is the `previous` promise of an acquisition resolved, so that its
`await previous` can resume? `previous` is either an already-resolved
fresh promise (`none`) or the `queueTail` of an earlier acquisition,
which resolves once that acquisition's `current` promise is resolved,
i.e. once its release has run. -/
def prevResolved (s : SerializerState) (a : Acq) : Bool :=
  match a.prev with
  | none => true
  | some p => memNat s.released p

/-- Event-loop steps of the serializer: the synchronous body of
`acquireModelExecutionSlot` up to its `await` (`acquire`), the
resumption of that `await` handing the caller the release closure
(`grant`), and the caller invoking the release closure (`release`). -/
inductive SerOp where
  | acquire (model : Nat)
  | grant (i : Nat)
  | release (i : Nat)

/-- One serializer step; `none` when the step is not enabled (a grant
before `previous` resolved, a release by a caller not yet granted). The
`acquire` step reads `modelExecutionQueue.get(model)` as `previous`,
builds `current` and `queueTail`, and stores `queueTail`; the `release`
step is idempotent (the `released` flag) and deletes the map entry only
when it still holds this acquisition's own `queueTail`. -/
def serStep (s : SerializerState) : SerOp → Option SerializerState
  | SerOp.acquire m =>
    some { s with
      acqs := s.acqs ++ [{ model := m, prev := lookupNatKey s.queueTail m }],
      queueTail := setNatKey s.queueTail m s.acqs.length }
  | SerOp.grant i =>
    match s.acqs[i]? with
    | some a =>
      if memNat s.granted i then none
      else if prevResolved s a then some { s with granted := i :: s.granted }
      else none
    | none => none
  | SerOp.release i =>
    match s.acqs[i]? with
    | some a =>
      if memNat s.granted i then
        if memNat s.released i then some s
        else
          some { s with
            released := i :: s.released,
            queueTail :=
              if lookupNatKey s.queueTail a.model == some i then
                eraseNatKey s.queueTail a.model
              else s.queueTail }
      else none
    | none => none

/-- Run a sequence of serializer steps; `none` when any step is not
enabled. -/
def serRun (s : SerializerState) : List SerOp → Option SerializerState
  | [] => some s
  | op :: ops =>
    match serStep s op with
    | some s1 => serRun s1 ops
    | none => none

/-- Inductive invariant of the serializer state: released acquisitions
were granted; a granted acquisition saw every earlier same-model
acquisition released (FIFO safety); the `previous` link of an
acquisition points to the nearest earlier same-model acquisition;
the `modelExecutionQueue` entry of a model is its latest acquisition,
absence of an entry meaning every acquisition on that model has been
released; and only existing acquisitions are granted. -/
def serInv (s : SerializerState) : Prop :=
  (∀ i : Nat, memNat s.released i = true → memNat s.granted i = true) ∧
  (∀ (i : Nat) (a : Acq), s.acqs[i]? = some a → memNat s.granted i = true →
    ∀ (j : Nat) (b : Acq), j < i → s.acqs[j]? = some b → b.model = a.model →
      memNat s.released j = true) ∧
  (∀ (i : Nat) (a : Acq) (p : Nat), s.acqs[i]? = some a → a.prev = some p →
    p < i ∧ (∃ bp : Acq, s.acqs[p]? = some bp ∧ bp.model = a.model) ∧
    (∀ (j : Nat) (b : Acq), p < j → j < i → s.acqs[j]? = some b → b.model ≠ a.model)) ∧
  (∀ (i : Nat) (a : Acq), s.acqs[i]? = some a → a.prev = none →
    ∀ (j : Nat) (b : Acq), j < i → s.acqs[j]? = some b → b.model = a.model →
      memNat s.released j = true) ∧
  (∀ (m p : Nat), lookupNatKey s.queueTail m = some p →
    p < s.acqs.length ∧ (∃ bp : Acq, s.acqs[p]? = some bp ∧ bp.model = m) ∧
    (∀ (j : Nat) (b : Acq), p < j → s.acqs[j]? = some b → b.model ≠ m)) ∧
  (∀ m : Nat, lookupNatKey s.queueTail m = none →
    ∀ (j : Nat) (b : Acq), s.acqs[j]? = some b → b.model = m →
      memNat s.released j = true) ∧
  (∀ i : Nat, memNat s.granted i = true → i < s.acqs.length)

/-- The claim-level element shape of C1: `type` is the string
`function_call`, `callId` and `name` are non-empty strings, and
`arguments` is a string. (Sufficient for, and slightly stronger than,
the source's truthiness-based `hasRequiredFields`.) -/
def claimValidItemB (item : Json) : Bool :=
  match item with
  | Json.obj kvs =>
    (match lookupKey kvs "type" with
     | some (Json.str t) => strEq t "function_call"
     | _ => false) &&
    (match lookupKey kvs "callId" with
     | some (Json.str c) => !c.data.isEmpty
     | _ => false) &&
    (match lookupKey kvs "name" with
     | some (Json.str n) => !n.data.isEmpty
     | _ => false) &&
    (match lookupKey kvs "arguments" with
     | some (Json.str _) => true
     | _ => false)
  | _ => false

/-- Does this `output` element fail the source's shape validation (by
returning `false` or by throwing)? -/
def validItemFails (item : Json) : Bool :=
  match validItem item with
  | Except.ok true => false
  | _ => true

/-- Key uniqueness of an association-list map: at most one binding per
model identifier. -/
def noDupStrKeys (l : List (String × Nat)) : Prop :=
  (l.map Prod.fst).Nodup

theorem charEq_eq {a b : Char} (h : charEq a b = true) : a = b := by
  simpa [charEq] using h

theorem charsEq_eq : ∀ {as bs : List Char}, charsEq as bs = true → as = bs := by
  intro as
  induction as with
  | nil =>
    intro bs h
    cases bs with
    | nil => rfl
    | cons b bs => simp [charsEq] at h
  | cons a as ih =>
    intro bs h
    cases bs with
    | nil => simp [charsEq] at h
    | cons b bs =>
      simp only [charsEq, Bool.and_eq_true] at h
      rw [charEq_eq h.1, ih h.2]

theorem charsEq_self : ∀ (as : List Char), charsEq as as = true := by
  intro as
  induction as with
  | nil => rfl
  | cons a as ih => simp [charsEq, charEq, ih]

theorem strEq_eq : ∀ {a b : String}, strEq a b = true → a = b := by
  intro a b h
  cases a with
  | mk da =>
    cases b with
    | mk db =>
      have h2 : da = db := charsEq_eq (by simpa [strEq] using h)
      rw [h2]

theorem strEq_self (s : String) : strEq s s = true := by
  cases s with
  | mk ds => simpa [strEq] using charsEq_self ds

theorem strFieldOf {kvs : List (String × Json)} {key : String} {f : String → Bool}
    (h : (match lookupKey kvs key with
          | some (Json.str t) => f t
          | _ => false) = true) :
    ∃ t : String, lookupKey kvs key = some (Json.str t) ∧ f t = true := by
  split at h
  · exact ⟨_, by assumption, h⟩
  · cases h

theorem validItem_of_claimValid : ∀ (item : Json), claimValidItemB item = true →
    validItem item = Except.ok true := by
  intro item h
  cases item with
  | obj kvs =>
    simp only [claimValidItemB, Bool.and_eq_true] at h
    obtain ⟨⟨⟨h1, h2⟩, h3⟩, h4⟩ := h
    obtain ⟨t, hl1, ht⟩ := strFieldOf h1
    obtain ⟨c, hl2, hc⟩ := strFieldOf h2
    obtain ⟨n, hl3, hn⟩ := strFieldOf h3
    obtain ⟨a, hl4, _⟩ := strFieldOf h4
    have ht2 : t = "function_call" := strEq_eq ht
    subst ht2
    simp [validItem, getField, hl1, hl2, hl3, hl4, jsTruthyOpt, jsTruthy, isStringVal,
      strEq_self, hc, hn]
  | null => simp [claimValidItemB] at h
  | bool b => simp [claimValidItemB] at h
  | num m e => simp [claimValidItemB] at h
  | str s => simp [claimValidItemB] at h
  | arr xs => simp [claimValidItemB] at h

theorem allValid_of_all : ∀ (items : List Json), items.all claimValidItemB = true →
    allValid items = Except.ok true := by
  intro items h
  induction items with
  | nil => rfl
  | cons x xs ih =>
    simp only [List.all_cons, Bool.and_eq_true] at h
    simp [allValid, validItem_of_claimValid x h.1, ih h.2]

/-- C1: for every response text whose extracted candidate parses as a
tool-call envelope (an object whose `output` is an array) in which every
element has type `function_call`, a non-empty string `callId`, a
non-empty string `name`, and a string `arguments` — the extraction
handling plain JSON, markdown code fences, and surrounding prose alike —
`parseToolCallResponse` returns exactly that output array, element for
element. -/
theorem c1_parser_accepts_valid_envelope (text : String) (kvs : List (String × Json)) (items : List Json)
    (h1 : jsonParseChars (extractCandidateChars text.data) = some (Json.obj kvs))
    (h2 : lookupKey kvs "output" = some (Json.arr items))
    (h3 : items.all claimValidItemB = true) :
    parseToolCallResponse text = some items := by
  have hall := allValid_of_all items h3
  unfold parseToolCallResponse parseBody
  rw [h1]
  simp [getField, h2, hall]

/-- Witness for C1 at a concrete envelope wrapped in both prose and a
markdown fence. -/
theorem c1_parser_accepts_valid_envelope_witness :
    parseToolCallResponse
      "Sure!\n```json\n\x7b \"output\": [ \x7b\"type\": \"function_call\", \"callId\": \"call_1\", \"name\": \"get_weather\", \"arguments\": \"\x7b\\\"city\\\": \\\"Paris\\\"\x7d\"\x7d ] \x7d\n```\nHope this helps." =
      some [Json.obj [("type", Json.str "function_call"), ("callId", Json.str "call_1"),
        ("name", Json.str "get_weather"), ("arguments", Json.str "\x7b\"city\": \"Paris\"\x7d")]] :=
  c1_parser_accepts_valid_envelope _
    [("output", Json.arr [Json.obj [("type", Json.str "function_call"),
      ("callId", Json.str "call_1"), ("name", Json.str "get_weather"),
      ("arguments", Json.str "\x7b\"city\": \"Paris\"\x7d")]])]
    [Json.obj [("type", Json.str "function_call"), ("callId", Json.str "call_1"),
      ("name", Json.str "get_weather"), ("arguments", Json.str "\x7b\"city\": \"Paris\"\x7d")]]
    rfl rfl rfl

theorem allValid_of_any_fails : ∀ (items : List Json), items.any validItemFails = true →
    allValid items = Except.ok false ∨ allValid items = Except.error () := by
  intro items h
  induction items with
  | nil => simp [List.any_nil] at h
  | cons x xs ih =>
    simp only [List.any_cons, Bool.or_eq_true] at h
    cases hx : validItem x with
    | error e =>
      right
      cases e
      simp [allValid, hx]
    | ok b =>
      cases b with
      | false =>
        left
        simp [allValid, hx]
      | true =>
        have hxs : xs.any validItemFails = true := by
          rcases h with h | h
          · exfalso
            simp [validItemFails, hx] at h
          · exact h
        have h2 := ih hxs
        rcases h2 with h2 | h2
        · left
          simp [allValid, hx, h2]
        · right
          simp [allValid, hx, h2]

/-- C2: for every response text whose extracted candidate parses as JSON
with an `output` array in which at least one element fails shape
validation (for example, an `arguments` field that is a nested object
instead of a string), `parseToolCallResponse` returns the "not a tool
call" result for the entire response: no element is accepted. -/
theorem c2_invalid_element_rejects_whole_response (text : String) (kvs : List (String × Json)) (items : List Json)
    (h1 : jsonParseChars (extractCandidateChars text.data) = some (Json.obj kvs))
    (h2 : lookupKey kvs "output" = some (Json.arr items))
    (h3 : items.any validItemFails = true) :
    parseToolCallResponse text = none := by
  unfold parseToolCallResponse parseBody
  rw [h1]
  rcases allValid_of_any_fails items h3 with hv | hv <;> simp [getField, h2, hv]

/-- Witness for C2 at a concrete envelope whose only element carries an
object-valued `arguments`. -/
theorem c2_invalid_element_rejects_whole_response_witness :
    parseToolCallResponse
      "\x7b\"output\":[\x7b\"type\":\"function_call\",\"callId\":\"call_1\",\"name\":\"get_weather\",\"arguments\":\x7b\"city\":\"Paris\"\x7d\x7d]\x7d" =
      none :=
  c2_invalid_element_rejects_whole_response _
    [("output", Json.arr [Json.obj [("type", Json.str "function_call"),
      ("callId", Json.str "call_1"), ("name", Json.str "get_weather"),
      ("arguments", Json.obj [("city", Json.str "Paris")])]])]
    [Json.obj [("type", Json.str "function_call"), ("callId", Json.str "call_1"),
      ("name", Json.str "get_weather"), ("arguments", Json.obj [("city", Json.str "Paris")])]]
    rfl rfl rfl

/-- C5: for every input string `parseToolCallResponse` returns either a
tool-call array or the "not a tool call" result (it is a total function
into an `Option`), and whenever the `try` block throws — every JSON
parse failure included — the `catch` resolves the response to "not a
tool call", so it degrades to plain text instead of propagating. -/
theorem c5_parser_total_fail_open (text : String) :
    (parseToolCallResponse text = none ∨ ∃ calls, parseToolCallResponse text = some calls) ∧
    (parseBody (extractCandidateChars text.data) = Except.error () →
      parseToolCallResponse text = none) := by
  constructor
  · cases hr : parseToolCallResponse text with
    | none => exact Or.inl rfl
    | some calls => exact Or.inr ⟨calls, rfl⟩
  · intro h
    unfold parseToolCallResponse
    rw [h]

/-- Witness for C5 at a truncated JSON input on which the parse body
actually throws. -/
theorem c5_parser_total_fail_open_witness :
    parseBody (extractCandidateChars ("\x7b\"output\": [".data)) = Except.error () ∧
    parseToolCallResponse "\x7b\"output\": [" = none :=
  ⟨rfl, (c5_parser_total_fail_open "\x7b\"output\": [").2 rfl⟩

/-- Counterexample to C6 as stated: on the syntactically valid envelope
with an empty `output` array, `parseToolCallResponse` returns the empty
array as a successful parse — a successful result that is not a
non-empty array. -/
theorem c6_counterexample_empty_output_accepted :
    parseToolCallResponse "\x7b\"output\":[]\x7d" = some ([] : List Json) := rfl

/-- C6 (amended): a successful result of `parseToolCallResponse` is
exactly the envelope's entire validated `output` array — all-or-nothing,
never a partial subset — and it is non-empty exactly when that array is
non-empty; the empty envelope yields a successful empty parse rather
than "not a tool call". -/
theorem c6_amended_success_is_entire_output (text : String) (calls : List Json)
    (h : parseToolCallResponse text = some calls) :
    (∃ kvs, jsonParseChars (extractCandidateChars text.data) = some (Json.obj kvs) ∧
      lookupKey kvs "output" = some (Json.arr calls)) ∧
    allValid calls = Except.ok true := by
  unfold parseToolCallResponse at h
  cases hb : parseBody (extractCandidateChars text.data) with
  | error e =>
    rw [hb] at h
    cases h
  | ok r =>
    rw [hb] at h
    change r = some calls at h
    subst h
    unfold parseBody at hb
    cases hj : jsonParseChars (extractCandidateChars text.data) with
    | none =>
      rw [hj] at hb
      simp at hb
    | some parsed =>
      rw [hj] at hb
      cases parsed with
      | null => simp [getField] at hb
      | bool b => simp [getField] at hb
      | num m e => simp [getField] at hb
      | str s => simp [getField] at hb
      | arr xs => simp [getField] at hb
      | obj kvs =>
        simp only [getField] at hb
        cases ho : lookupKey kvs "output" with
        | none =>
          rw [ho] at hb
          simp at hb
        | some v =>
          rw [ho] at hb
          cases v with
          | null => simp at hb
          | bool b => simp at hb
          | num m e => simp at hb
          | str s => simp at hb
          | obj kvs2 => simp at hb
          | arr items =>
            cases ha : allValid items with
            | error e => simp [ha] at hb
            | ok b =>
              cases b with
              | false => simp [ha] at hb
              | true =>
                simp [ha] at hb
                subst hb
                exact ⟨⟨kvs, rfl, ho⟩, ha⟩

/-- Witness for the amended C6 at the empty-output envelope. -/
theorem c6_amended_success_is_entire_output_witness :
    (∃ kvs, jsonParseChars (extractCandidateChars ("\x7b\"output\":[]\x7d".data)) =
        some (Json.obj kvs) ∧
      lookupKey kvs "output" = some (Json.arr ([] : List Json))) ∧
    allValid ([] : List Json) = Except.ok true :=
  c6_amended_success_is_entire_output "\x7b\"output\":[]\x7d" [] rfl

/-- C10: on the response text consisting of the envelope with an empty
`output` array, `parseToolCallResponse` returns the empty array as a
successful parse, and the stream transform then emits neither text
events nor tool-call events, so the consumer observes an entirely empty
response. -/
theorem c10_empty_output_empty_response :
    parseToolCallResponse "\x7b\"output\":[]\x7d" = some ([] : List Json) ∧
    reshape [StreamPart.textStart "t1", StreamPart.textDelta "t1" "\x7b\"output\":[]\x7d",
      StreamPart.textEnd "t1"] = [] :=
  ⟨rfl, rfl⟩

theorem reshapeGo_deltas (id : String) (deltas : List String) :
    ∀ (b : String) (tid : Option String) (rest : List StreamPart),
    reshapeGo { bufferedText := b, textId := tid }
        (deltas.map (fun d => StreamPart.textDelta id d) ++ rest) =
      reshapeGo { bufferedText := deltas.foldl (fun acc d => acc ++ d) b, textId := tid } rest := by
  induction deltas with
  | nil => intro b tid rest; rfl
  | cons d ds ih =>
    intro b tid rest
    show reshapeGo { bufferedText := b ++ d, textId := tid }
        (ds.map (fun d => StreamPart.textDelta id d) ++ rest) =
      reshapeGo { bufferedText := ds.foldl (fun acc d => acc ++ d) (b ++ d), textId := tid } rest
    exact ih (b ++ d) tid rest

/-- Counterexample to C3 as stated: for the segment identifier `""` —
falsy in JavaScript — the `if (textId)` guard suppresses the emission,
so although the buffered text "Hello" does not parse as a tool call,
the reshaped stream emits nothing instead of the claimed
text-start/text-delta/text-end run. -/
theorem c3_counterexample_empty_segment_id :
    parseToolCallResponse "Hello" = none ∧
    reshape [StreamPart.textStart "", StreamPart.textDelta "" "Hel",
        StreamPart.textDelta "" "lo", StreamPart.textEnd ""] = [] ∧
    reshape [StreamPart.textStart "", StreamPart.textDelta "" "Hel",
        StreamPart.textDelta "" "lo", StreamPart.textEnd ""] ≠
      [StreamPart.textStart "", StreamPart.textDelta "" "Hello", StreamPart.textEnd ""] :=
  ⟨rfl, rfl, fun h => nomatch h⟩

/-- C3 (amended): for every streamed response whose buffered text does
not parse as a tool call, if the original segment identifier is truthy
(non-empty), the reshaped stream emits text-start, exactly one
text-delta whose payload is the byte-for-byte concatenation of all
original text deltas, and text-end, all carrying that identifier; for
the falsy empty identifier the stream emits nothing at all. -/
theorem c3_amended_text_coalesced_for_truthy_id (id : String) (deltas : List String)
    (h : parseToolCallResponse (deltas.foldl (fun acc d => acc ++ d) "") = none) :
    (id.data.isEmpty = false →
      reshape (StreamPart.textStart id ::
          (deltas.map (fun d => StreamPart.textDelta id d) ++ [StreamPart.textEnd id])) =
        [StreamPart.textStart id,
         StreamPart.textDelta id (deltas.foldl (fun acc d => acc ++ d) ""),
         StreamPart.textEnd id]) ∧
    (id.data.isEmpty = true →
      reshape (StreamPart.textStart id ::
          (deltas.map (fun d => StreamPart.textDelta id d) ++ [StreamPart.textEnd id])) = []) := by
  constructor
  · intro hid
    unfold reshape
    show reshapeGo { bufferedText := "", textId := some id }
        (deltas.map (fun d => StreamPart.textDelta id d) ++ [StreamPart.textEnd id]) = _
    rw [reshapeGo_deltas]
    simp [reshapeGo, transformChunk, h, hid]
  · intro hid
    unfold reshape
    show reshapeGo { bufferedText := "", textId := some id }
        (deltas.map (fun d => StreamPart.textDelta id d) ++ [StreamPart.textEnd id]) = _
    rw [reshapeGo_deltas]
    simp [reshapeGo, transformChunk, h, hid]

/-- Witness for the amended C3: with the truthy identifier "t1", input
deltas "Hel", "lo" come out as a single coalesced delta "Hello". -/
theorem c3_amended_text_coalesced_for_truthy_id_witness :
    parseToolCallResponse "Hello" = none ∧
    reshape [StreamPart.textStart "t1", StreamPart.textDelta "t1" "Hel",
        StreamPart.textDelta "t1" "lo", StreamPart.textEnd "t1"] =
      [StreamPart.textStart "t1", StreamPart.textDelta "t1" "Hello", StreamPart.textEnd "t1"] :=
  ⟨rfl, (c3_amended_text_coalesced_for_truthy_id "t1" ["Hel", "lo"] rfl).1 rfl⟩

/-- C4: for every streamed response whose buffered segment text parses
as N tool calls, the reshaped stream emits, for each call in array
order, tool-input-start, tool-input-delta carrying the full arguments
string, tool-input-end, and tool-call, each under the call's own id;
emits zero text events for that response; and every chunk other than
text-start/text-delta/text-end passes through unchanged and
immediately. -/
theorem c4_tool_call_events_per_parsed_call (id : String) (deltas : List String) (calls : List Json)
    (h : parseToolCallResponse (deltas.foldl (fun acc d => acc ++ d) "") = some calls) :
    reshape (StreamPart.textStart id ::
        (deltas.map (fun d => StreamPart.textDelta id d) ++ [StreamPart.textEnd id])) =
      calls.flatMap emitToolCallParts ∧
    (∀ p ∈ calls.flatMap emitToolCallParts, isTextPart p = false) ∧
    (∀ (st : ReshapeState) (c : StreamPart), isTextPart c = false →
      transformChunk st c = (st, [c])) := by
  refine ⟨?_, ?_, ?_⟩
  · unfold reshape
    show reshapeGo { bufferedText := "", textId := some id }
        (deltas.map (fun d => StreamPart.textDelta id d) ++ [StreamPart.textEnd id]) = _
    rw [reshapeGo_deltas]
    simp [reshapeGo, transformChunk, h]
  · intro p hp
    simp only [List.mem_flatMap] at hp
    obtain ⟨call, _, hmem⟩ := hp
    simp only [emitToolCallParts, List.mem_cons, List.not_mem_nil, or_false] at hmem
    rcases hmem with rfl | rfl | rfl | rfl
    · rfl
    · rfl
    · rfl
    · rfl
  · intro st c hc
    cases c with
    | textStart a => simp [isTextPart] at hc
    | textDelta a b => simp [isTextPart] at hc
    | textEnd a => simp [isTextPart] at hc
    | toolInputStart a b => rfl
    | toolInputDelta a b => rfl
    | toolInputEnd a => rfl
    | toolCall a b c2 => rfl
    | passthrough t => rfl

/-- Witness for C4 at a tool-call JSON split across two deltas. -/
theorem c4_tool_call_events_per_parsed_call_witness :
    reshape [StreamPart.textStart "t1",
        StreamPart.textDelta "t1" "\x7b\"output\":[\x7b\"type\":\"function_call\",\"callId\":\"c1\",",
        StreamPart.textDelta "t1" "\"name\":\"t\",\"arguments\":\"\x7b\x7d\"\x7d]\x7d",
        StreamPart.textEnd "t1"] =
      [StreamPart.toolInputStart (some (Json.str "c1")) (some (Json.str "t")),
       StreamPart.toolInputDelta (some (Json.str "c1")) (some (Json.str "\x7b\x7d")),
       StreamPart.toolInputEnd (some (Json.str "c1")),
       StreamPart.toolCall (some (Json.str "c1")) (some (Json.str "t"))
         (some (Json.str "\x7b\x7d"))] :=
  (c4_tool_call_events_per_parsed_call "t1"
    ["\x7b\"output\":[\x7b\"type\":\"function_call\",\"callId\":\"c1\",",
     "\"name\":\"t\",\"arguments\":\"\x7b\x7d\"\x7d]\x7d"]
    [Json.obj [("type", Json.str "function_call"), ("callId", Json.str "c1"),
      ("name", Json.str "t"), ("arguments", Json.str "\x7b\x7d")]]
    rfl).1

theorem findIndex_some {α : Type} {p : α → Bool} :
    ∀ {l : List α} {i : Nat}, findIndex p l = some i →
    ∃ m, l[i]? = some m ∧ p m = true := by
  intro l
  induction l with
  | nil => intro i h; cases h
  | cons x xs ih =>
    intro i h
    cases hpx : p x with
    | true =>
      rw [findIndex, hpx] at h
      simp at h
      subst h
      exact ⟨x, by simp, hpx⟩
    | false =>
      rw [findIndex, hpx] at h
      simp only [Bool.false_eq_true, if_false, Option.map_eq_some'] at h
      obtain ⟨j, hj, rfl⟩ := h
      obtain ⟨m, hm, hpm⟩ := ih hj
      exact ⟨m, by simpa using hm, hpm⟩

/-- C9: `prependSystemPromptToMessages` returns a sequence in which the
instruction is prepended with a blank-line separator to the content of
the first user-role message (non-string content serialized to its JSON
text form first), every other position left exactly as it was and the
length unchanged; when no user message exists, a new leading user
message holding only the instruction is inserted. The function is pure,
so the input sequence is never mutated. -/
theorem c9_prepend_system_prompt_shape (msgs : List LMMessage) (instr : String) :
    (∀ i : Nat, findIndex (fun p => strEq p.role "user") msgs = some i →
      ∃ m, msgs[i]? = some m ∧
        prependSystemPromptToMessages msgs instr =
          msgs.set i { m with content := Json.str (instr ++ "\n\n" ++ contentText m.content) } ∧
        (∀ j : Nat, j ≠ i → (prependSystemPromptToMessages msgs instr)[j]? = msgs[j]?) ∧
        (prependSystemPromptToMessages msgs instr).length = msgs.length) ∧
    (findIndex (fun p => strEq p.role "user") msgs = none →
      prependSystemPromptToMessages msgs instr =
        { role := "user", content := Json.str instr } :: msgs) := by
  constructor
  · intro i hi
    obtain ⟨m, hm, _⟩ := findIndex_some hi
    have hpre : prependSystemPromptToMessages msgs instr =
        msgs.set i { m with content := Json.str (instr ++ "\n\n" ++ contentText m.content) } := by
      unfold prependSystemPromptToMessages
      simp only [hi, hm]
    refine ⟨m, hm, hpre, ?_, ?_⟩
    · intro j hj
      rw [hpre]
      exact List.getElem?_set_ne (Ne.symm hj)
    · rw [hpre]
      exact List.length_set msgs i _
  · intro h
    unfold prependSystemPromptToMessages
    rw [h]

/-- Witness for C9 at the spec's example: an assistant message followed
by user "hi" with instruction "X". -/
theorem c9_prepend_system_prompt_shape_witness :
    ∃ m, ([{ role := "assistant", content := Json.str "yo" },
          { role := "user", content := Json.str "hi" }] : List LMMessage)[1]? = some m ∧
      prependSystemPromptToMessages
          [{ role := "assistant", content := Json.str "yo" },
           { role := "user", content := Json.str "hi" }] "X" =
        [{ role := "assistant", content := Json.str "yo" },
         { role := "user", content := Json.str "hi" }].set 1
          { m with content := Json.str ("X" ++ "\n\n" ++ contentText m.content) } ∧
      (∀ j : Nat, j ≠ 1 →
        (prependSystemPromptToMessages
          [{ role := "assistant", content := Json.str "yo" },
           { role := "user", content := Json.str "hi" }] "X")[j]? =
        ([{ role := "assistant", content := Json.str "yo" },
         { role := "user", content := Json.str "hi" }] : List LMMessage)[j]?) ∧
      (prependSystemPromptToMessages
        [{ role := "assistant", content := Json.str "yo" },
         { role := "user", content := Json.str "hi" }] "X").length = 2 :=
  (c9_prepend_system_prompt_shape [{ role := "assistant", content := Json.str "yo" },
    { role := "user", content := Json.str "hi" }] "X").1 1 rfl

theorem strEq_false_ne {a b : String} (h : strEq a b = false) : a ≠ b := by
  intro he
  subst he
  rw [strEq_self] at h
  cases h

theorem initModel_pending {s : WebLLMState} {name : String} {p : Nat}
    (h : lookupStrNat s.webLLMModelInitialization name = some p) :
    initializeWebLLMModel s name = (s, p) := by
  unfold initializeWebLLMModel
  rw [h]

theorem cacheRun_replicate_pending {s : WebLLMState} {name : String} {p : Nat}
    (h : lookupStrNat s.webLLMModelInitialization name = some p) :
    ∀ n : Nat, cacheRun s (List.replicate n (CacheOp.initModel name)) =
      (s, List.replicate n (some p)) := by
  intro n
  induction n with
  | zero => rfl
  | succ k ih =>
    rw [List.replicate_succ]
    simp only [cacheRun, cacheStep, initModel_pending h, ih, List.replicate_succ]

theorem getOrCreate_preserves {s : WebLLMState} {name2 nm : String} {h : Nat}
    (hyp : lookupStrNat s.webLLMModels nm = some h) :
    lookupStrNat (getOrCreateWebLLMModel s name2).1.webLLMModels nm = some h := by
  unfold getOrCreateWebLLMModel
  cases hl : lookupStrNat s.webLLMModels name2 with
  | some h2 => exact hyp
  | none =>
    cases hs : strEq name2 nm with
    | true =>
      exfalso
      rw [strEq_eq hs] at hl
      rw [hyp] at hl
      cases hl
    | false => simp [lookupStrNat, hs, hyp]

theorem initialize_preserves {s : WebLLMState} {name2 nm : String} {h : Nat}
    (hyp : lookupStrNat s.webLLMModels nm = some h) :
    lookupStrNat (initializeWebLLMModel s name2).1.webLLMModels nm = some h := by
  unfold initializeWebLLMModel
  cases hp : lookupStrNat s.webLLMModelInitialization name2 with
  | some p => exact hyp
  | none => exact getOrCreate_preserves hyp

theorem step_preserves_lookup {s : WebLLMState} {op : CacheOp} {nm : String} {h : Nat}
    (hyp : lookupStrNat s.webLLMModels nm = some h) :
    lookupStrNat (cacheStep s op).1.webLLMModels nm = some h := by
  cases op with
  | getModel name2 => exact getOrCreate_preserves hyp
  | initModel name2 =>
    show lookupStrNat (initializeWebLLMModel s name2).1.webLLMModels nm = some h
    exact initialize_preserves hyp
  | settleInit name2 => exact hyp

theorem run_preserves_lookup {nm : String} {h : Nat} :
    ∀ (ops : List CacheOp) (s : WebLLMState),
    lookupStrNat s.webLLMModels nm = some h →
    lookupStrNat (cacheRun s ops).1.webLLMModels nm = some h := by
  intro ops
  induction ops with
  | nil => intro s hyp; exact hyp
  | cons op rest ih =>
    intro s hyp
    show lookupStrNat (cacheRun (cacheStep s op).1 rest).1.webLLMModels nm = some h
    exact ih _ (step_preserves_lookup hyp)

theorem lookup_none_not_mem {nm : String} :
    ∀ {l : List (String × Nat)}, lookupStrNat l nm = none → nm ∉ l.map Prod.fst := by
  intro l
  induction l with
  | nil => intro _ hm; cases hm
  | cons kv rest ih =>
    intro hl hm
    obtain ⟨k, v⟩ := kv
    cases hs : strEq k nm with
    | true =>
      unfold lookupStrNat at hl
      rw [hs] at hl
      cases hl
    | false =>
      unfold lookupStrNat at hl
      rw [hs] at hl
      simp only [List.map_cons, List.mem_cons] at hm
      rcases hm with hm | hm
      · exact strEq_false_ne hs hm.symm
      · exact ih (by simpa using hl) hm

theorem getOrCreate_preserves_nodup {s : WebLLMState} {name2 : String}
    (hd : noDupStrKeys s.webLLMModels) :
    noDupStrKeys (getOrCreateWebLLMModel s name2).1.webLLMModels := by
  unfold getOrCreateWebLLMModel
  cases hl : lookupStrNat s.webLLMModels name2 with
  | some h2 => exact hd
  | none =>
    unfold noDupStrKeys at hd ⊢
    simp only [List.map_cons, List.nodup_cons]
    exact ⟨lookup_none_not_mem hl, hd⟩

theorem initialize_preserves_nodup {s : WebLLMState} {name2 : String}
    (hd : noDupStrKeys s.webLLMModels) :
    noDupStrKeys (initializeWebLLMModel s name2).1.webLLMModels := by
  unfold initializeWebLLMModel
  cases hp : lookupStrNat s.webLLMModelInitialization name2 with
  | some p => exact hd
  | none => exact getOrCreate_preserves_nodup hd

theorem step_preserves_nodup {s : WebLLMState} {op : CacheOp}
    (hd : noDupStrKeys s.webLLMModels) :
    noDupStrKeys (cacheStep s op).1.webLLMModels := by
  cases op with
  | getModel name2 => exact getOrCreate_preserves_nodup hd
  | initModel name2 =>
    show noDupStrKeys (initializeWebLLMModel s name2).1.webLLMModels
    exact initialize_preserves_nodup hd
  | settleInit name2 => exact hd

theorem run_preserves_nodup :
    ∀ (ops : List CacheOp) (s : WebLLMState), noDupStrKeys s.webLLMModels →
    noDupStrKeys (cacheRun s ops).1.webLLMModels := by
  intro ops
  induction ops with
  | nil => intro s hd; exact hd
  | cons op rest ih =>
    intro s hd
    show noDupStrKeys (cacheRun (cacheStep s op).1 rest).1.webLLMModels
    exact ih _ (step_preserves_nodup hd)

theorem initModel_fresh {s : WebLLMState} {name : String}
    (hm : lookupStrNat s.webLLMModels name = none)
    (hi : lookupStrNat s.webLLMModelInitialization name = none) :
    initializeWebLLMModel s name =
      ({ webLLMModels := (name, s.nextHandleId) :: s.webLLMModels,
         webLLMModelInitialization := (name, s.nextInitId) :: s.webLLMModelInitialization,
         nextHandleId := s.nextHandleId + 1,
         nextInitId := s.nextInitId + 1 }, s.nextInitId) := by
  unfold initializeWebLLMModel getOrCreateWebLLMModel
  rw [hi, hm]

/-- C7: N+1 initialization requests for the same model identifier with
no settle in between (the in-flight window) perform exactly one
underlying model construction and start exactly one initialization
promise, every caller receiving that same promise and the cache holding
the one constructed handle; moreover, over arbitrary operation
sequences the cache never holds two handles for one identifier (key
uniqueness is preserved) and never evicts a handle. -/
theorem c7_single_flight_cache (s : WebLLMState) (name : String) (n : Nat)
    (hm : lookupStrNat s.webLLMModels name = none)
    (hi : lookupStrNat s.webLLMModelInitialization name = none) :
    (cacheRun s (List.replicate (n+1) (CacheOp.initModel name))).1.nextHandleId =
      s.nextHandleId + 1 ∧
    (cacheRun s (List.replicate (n+1) (CacheOp.initModel name))).1.nextInitId =
      s.nextInitId + 1 ∧
    (cacheRun s (List.replicate (n+1) (CacheOp.initModel name))).2 =
      List.replicate (n+1) (some s.nextInitId) ∧
    lookupStrNat (cacheRun s (List.replicate (n+1) (CacheOp.initModel name))).1.webLLMModels
      name = some s.nextHandleId ∧
    (∀ ops : List CacheOp, noDupStrKeys s.webLLMModels →
      noDupStrKeys (cacheRun s ops).1.webLLMModels) ∧
    (∀ (ops : List CacheOp) (nm : String) (hdl : Nat),
      lookupStrNat s.webLLMModels nm = some hdl →
      lookupStrNat (cacheRun s ops).1.webLLMModels nm = some hdl) := by
  have hpend : lookupStrNat
      ({ webLLMModels := (name, s.nextHandleId) :: s.webLLMModels,
         webLLMModelInitialization := (name, s.nextInitId) :: s.webLLMModelInitialization,
         nextHandleId := s.nextHandleId + 1,
         nextInitId := s.nextInitId + 1 } : WebLLMState).webLLMModelInitialization name =
      some s.nextInitId := by
    simp [lookupStrNat, strEq_self]
  have hrun : cacheRun s (List.replicate (n+1) (CacheOp.initModel name)) =
      ({ webLLMModels := (name, s.nextHandleId) :: s.webLLMModels,
         webLLMModelInitialization := (name, s.nextInitId) :: s.webLLMModelInitialization,
         nextHandleId := s.nextHandleId + 1,
         nextInitId := s.nextInitId + 1 },
       List.replicate (n+1) (some s.nextInitId)) := by
    rw [List.replicate_succ]
    simp only [cacheRun, cacheStep, initModel_fresh hm hi,
      cacheRun_replicate_pending hpend n, List.replicate_succ]
  refine ⟨?_, ?_, ?_, ?_, ?_, ?_⟩
  · rw [hrun]
  · rw [hrun]
  · rw [hrun]
  · rw [hrun]
    simp [lookupStrNat, strEq_self]
  · intro ops hd
    exact run_preserves_nodup ops s hd
  · intro ops nm hdl hyp
    exact run_preserves_lookup ops s hyp

/-- Witness for C7: two concurrent initializations from the empty state
both receive promise 0. -/
theorem c7_single_flight_cache_witness :
    (cacheRun webLLMInit (List.replicate 2 (CacheOp.initModel "model-a"))).2 =
      [some 0, some 0] :=
  (c7_single_flight_cache webLLMInit "model-a" 1 rfl rfl).2.2.1


theorem getLt {α : Type} {l : List α} {i : Nat} {a : α} (h : l[i]? = some a) : i < l.length := by
  by_contra h2
  rw [List.getElem?_eq_none (Nat.le_of_not_lt h2)] at h
  cases h

theorem append_lt {α : Type} {l : List α} {x : α} {i : Nat} (h : i < l.length) :
    (l ++ [x])[i]? = l[i]? := by
  rw [List.getElem?_append]
  simp [h]

theorem append_len {α : Type} (l : List α) (x : α) : (l ++ [x])[l.length]? = some x := by
  rw [List.getElem?_append_right (Nat.le_refl _)]
  simp

theorem append_cases {α : Type} {l : List α} {x : α} {i : Nat} {b : α}
    (h : (l ++ [x])[i]? = some b) :
    (i < l.length ∧ l[i]? = some b) ∨ (i = l.length ∧ b = x) := by
  by_cases hlt : i < l.length
  · left
    exact ⟨hlt, by rw [← append_lt hlt]; exact h⟩
  · right
    have hle : l.length ≤ i := Nat.le_of_not_lt hlt
    rcases Nat.eq_or_lt_of_le hle with heq | hgt
    · subst heq
      rw [append_len] at h
      injection h with h2
      exact ⟨rfl, h2.symm⟩
    · exfalso
      have : (l ++ [x]).length ≤ i := by
        simp only [List.length_append, List.length_cons, List.length_nil]
        omega
      rw [List.getElem?_eq_none this] at h
      cases h

theorem memNat_cons_self (l : List Nat) (i : Nat) : memNat (i :: l) i = true := by
  simp [memNat]

theorem memNat_cons_of {l : List Nat} (x : Nat) {i : Nat} (h : memNat l i = true) :
    memNat (x :: l) i = true := by
  simp [memNat, h]

theorem memNat_cons_elim {l : List Nat} {x i : Nat} (h : memNat (x :: l) i = true) :
    x = i ∨ memNat l i = true := by
  simpa [memNat] using h

theorem lookupNatKey_set_self : ∀ (l : List (Nat × Nat)) (k v : Nat),
    lookupNatKey (setNatKey l k v) k = some v := by
  intro l k v
  induction l with
  | nil => simp [setNatKey, lookupNatKey]
  | cons kv rest ih =>
    obtain ⟨k2, w⟩ := kv
    by_cases hk : k2 = k
    · subst hk
      simp [setNatKey, lookupNatKey]
    · have hb : (k2 == k) = false := by simpa using hk
      simp [setNatKey, lookupNatKey, hb, ih]

theorem lookupNatKey_set_ne : ∀ (l : List (Nat × Nat)) (k v k2 : Nat), k2 ≠ k →
    lookupNatKey (setNatKey l k v) k2 = lookupNatKey l k2 := by
  intro l k v k2 hne
  induction l with
  | nil =>
    have hb : (k == k2) = false := by simpa using fun h => hne h.symm
    simp [setNatKey, lookupNatKey, hb]
  | cons kv rest ih =>
    obtain ⟨k3, w⟩ := kv
    by_cases hk : k3 = k
    · subst hk
      have hb : (k3 == k2) = false := by simpa using fun h => hne h.symm
      simp [setNatKey, lookupNatKey, hb]
    · have hb : (k3 == k) = false := by simpa using hk
      simp only [setNatKey, hb, if_false, Bool.false_eq_true]
      by_cases hk2 : k3 = k2
      · subst hk2
        simp [lookupNatKey]
      · have hb2 : (k3 == k2) = false := by simpa using hk2
        simp [lookupNatKey, hb2, ih]

theorem lookupNatKey_erase_self : ∀ (l : List (Nat × Nat)) (k : Nat),
    lookupNatKey (eraseNatKey l k) k = none := by
  intro l k
  induction l with
  | nil => simp [eraseNatKey, lookupNatKey]
  | cons kv rest ih =>
    obtain ⟨k2, w⟩ := kv
    by_cases hk : k2 = k
    · subst hk
      simp [eraseNatKey, ih]
    · have hb : (k2 == k) = false := by simpa using hk
      simp [eraseNatKey, lookupNatKey, hb, ih]

theorem lookupNatKey_erase_ne : ∀ (l : List (Nat × Nat)) (k k2 : Nat), k2 ≠ k →
    lookupNatKey (eraseNatKey l k) k2 = lookupNatKey l k2 := by
  intro l k k2 hne
  induction l with
  | nil => simp [eraseNatKey]
  | cons kv rest ih =>
    obtain ⟨k3, w⟩ := kv
    by_cases hk : k3 = k
    · subst hk
      have hb : (k3 == k2) = false := by simpa using fun h => hne h.symm
      simp [eraseNatKey, lookupNatKey, hb, ih]
    · have hb : (k3 == k) = false := by simpa using hk
      by_cases hk2 : k3 = k2
      · subst hk2
        simp [eraseNatKey, lookupNatKey, hb]
      · have hb2 : (k3 == k2) = false := by simpa using hk2
        simp [eraseNatKey, lookupNatKey, hb, hb2, ih]

theorem serInv_init : serInv serInit := by
  refine ⟨?_, ?_, ?_, ?_, ?_, ?_, ?_⟩ <;> intros <;> simp_all [serInit, memNat, lookupNatKey]

theorem serInv_acquire {s : SerializerState} {m : Nat} (hinv : serInv s) :
    serInv { s with
      acqs := s.acqs ++ [{ model := m, prev := lookupNatKey s.queueTail m }],
      queueTail := setNatKey s.queueTail m s.acqs.length } := by
  obtain ⟨hC1, hC2, hC3, hC4, hC5, hC6, hC7⟩ := hinv
  refine ⟨hC1, ?_, ?_, ?_, ?_, ?_, ?_⟩
  · intro i2 a hia hg j b hj hjb hbm
    have hi2lt : i2 < s.acqs.length := hC7 i2 hg
    rw [append_lt hi2lt] at hia
    rw [append_lt (Nat.lt_trans hj hi2lt)] at hjb
    exact hC2 i2 a hia hg j b hj hjb hbm
  · intro i2 a p hia hp
    rcases append_cases hia with ⟨hlt, hia'⟩ | ⟨hieq, hae⟩
    · obtain ⟨hpi, ⟨bp, hbp, hbpm⟩, hbet⟩ := hC3 i2 a p hia' hp
      refine ⟨hpi, ⟨bp, by rw [append_lt (getLt hbp)]; exact hbp, hbpm⟩, ?_⟩
      intro j b hpj hji hjb hbm2
      rw [append_lt (Nat.lt_trans hji hlt)] at hjb
      exact hbet j b hpj hji hjb hbm2
    · subst hieq
      subst hae
      have hp' : lookupNatKey s.queueTail m = some p := hp
      obtain ⟨hplen, ⟨bp, hbp, hbpm⟩, hafter⟩ := hC5 m p hp'
      refine ⟨hplen, ⟨bp, by rw [append_lt hplen]; exact hbp, hbpm⟩, ?_⟩
      intro j b hpj hji hjb hbm2
      rw [append_lt hji] at hjb
      exact absurd hbm2 (hafter j b hpj hjb)
  · intro i2 a hia hp j b hj hjb hbm
    rcases append_cases hia with ⟨hlt, hia'⟩ | ⟨hieq, hae⟩
    · rw [append_lt (Nat.lt_trans hj hlt)] at hjb
      exact hC4 i2 a hia' hp j b hj hjb hbm
    · subst hieq
      subst hae
      rw [append_lt hj] at hjb
      exact hC6 m hp j b hjb hbm
  · intro m2 p hp
    by_cases hm2 : m2 = m
    · subst hm2
      rw [lookupNatKey_set_self] at hp
      injection hp with hpe
      subst hpe
      refine ⟨by simp, ⟨{ model := m2, prev := lookupNatKey s.queueTail m2 }, append_len _ _, rfl⟩, ?_⟩
      intro j b hpj hjb
      have hlen : (s.acqs ++ [({ model := m2, prev := lookupNatKey s.queueTail m2 } : Acq)]).length ≤ j := by
        simp only [List.length_append, List.length_cons, List.length_nil]
        omega
      rw [List.getElem?_eq_none hlen] at hjb
      cases hjb
    · rw [lookupNatKey_set_ne _ _ _ _ hm2] at hp
      obtain ⟨hplen, ⟨bp, hbp, hbpm⟩, hafter⟩ := hC5 m2 p hp
      refine ⟨by simp; omega, ⟨bp, by rw [append_lt hplen]; exact hbp, hbpm⟩, ?_⟩
      intro j b hpj hjb
      rcases append_cases hjb with ⟨_, hjb'⟩ | ⟨_, hbe⟩
      · exact hafter j b hpj hjb'
      · subst hbe
        intro hmm
        exact hm2 hmm.symm
  · intro m2 hm2 j b hjb hbm
    by_cases he : m2 = m
    · subst he
      rw [lookupNatKey_set_self] at hm2
      cases hm2
    · rw [lookupNatKey_set_ne _ _ _ _ he] at hm2
      rcases append_cases hjb with ⟨_, hjb'⟩ | ⟨_, hbe⟩
      · exact hC6 m2 hm2 j b hjb' hbm
      · subst hbe
        exact (he hbm.symm).elim
  · intro i2 hg
    have := hC7 i2 hg
    simp only [List.length_append, List.length_cons, List.length_nil]
    omega

theorem serInv_grant {s : SerializerState} {i : Nat} {a : Acq} (hinv : serInv s)
    (hia : s.acqs[i]? = some a) (hpr : prevResolved s a = true) :
    serInv { s with granted := i :: s.granted } := by
  obtain ⟨hC1, hC2, hC3, hC4, hC5, hC6, hC7⟩ := hinv
  refine ⟨?_, ?_, hC3, hC4, hC5, hC6, ?_⟩
  · intro i2 hrel
    exact memNat_cons_of _ (hC1 i2 hrel)
  · intro i2 a2 hia2 hg2 j b hj hjb hbm
    rcases memNat_cons_elim hg2 with heq | hg2old
    · subst heq
      rw [hia] at hia2
      injection hia2 with hae
      subst hae
      cases hap : a.prev with
      | none => exact hC4 i a hia hap j b hj hjb hbm
      | some p =>
        have hrp : memNat s.released p = true := by
          unfold prevResolved at hpr
          rw [hap] at hpr
          exact hpr
        have hgp : memNat s.granted p = true := hC1 p hrp
        obtain ⟨hpi, ⟨bp, hbp, hbpm⟩, hbet⟩ := hC3 i a p hia hap
        rcases Nat.lt_trichotomy j p with hjp | hjp | hjp
        · exact hC2 p bp hbp hgp j b hjp hjb (hbm.trans hbpm.symm)
        · subst hjp
          exact hrp
        · exact absurd hbm (hbet j b hjp hj hjb)
    · exact hC2 i2 a2 hia2 hg2old j b hj hjb hbm
  · intro i2 hg2
    rcases memNat_cons_elim hg2 with heq | hg2old
    · subst heq
      exact getLt hia
    · exact hC7 i2 hg2old

theorem serInv_release_erase {s : SerializerState} {i : Nat} {a : Acq} (hinv : serInv s)
    (hia : s.acqs[i]? = some a) (hg : memNat s.granted i = true)
    (hq : lookupNatKey s.queueTail a.model = some i) :
    serInv { s with released := i :: s.released,
                    queueTail := eraseNatKey s.queueTail a.model } := by
  obtain ⟨hC1, hC2, hC3, hC4, hC5, hC6, hC7⟩ := hinv
  refine ⟨?_, ?_, hC3, ?_, ?_, ?_, hC7⟩
  · intro i2 hrel
    rcases memNat_cons_elim hrel with heq | hrelold
    · subst heq
      exact hg
    · exact hC1 i2 hrelold
  · intro i2 a2 hia2 hg2 j b hj hjb hbm
    exact memNat_cons_of _ (hC2 i2 a2 hia2 hg2 j b hj hjb hbm)
  · intro i2 a2 hia2 hp j b hj hjb hbm
    exact memNat_cons_of _ (hC4 i2 a2 hia2 hp j b hj hjb hbm)
  · intro m2 p hp
    by_cases hm2 : m2 = a.model
    · subst hm2
      rw [lookupNatKey_erase_self] at hp
      cases hp
    · rw [lookupNatKey_erase_ne _ _ _ hm2] at hp
      exact hC5 m2 p hp
  · intro m2 hm2 j b hjb hbm
    by_cases he : m2 = a.model
    · subst he
      obtain ⟨hilen, ⟨bp, hbp, hbpm⟩, hafter⟩ := hC5 a.model i hq
      rcases Nat.lt_trichotomy j i with hji | hji | hji
      · exact memNat_cons_of _ (hC2 i a hia hg j b hji hjb hbm)
      · subst hji
        exact memNat_cons_self _ _
      · exact absurd hbm (hafter j b hji hjb)
    · rw [lookupNatKey_erase_ne _ _ _ he] at hm2
      exact memNat_cons_of _ (hC6 m2 hm2 j b hjb hbm)

theorem serInv_release_keep {s : SerializerState} {i : Nat} (hinv : serInv s)
    (hg : memNat s.granted i = true) :
    serInv { s with released := i :: s.released } := by
  obtain ⟨hC1, hC2, hC3, hC4, hC5, hC6, hC7⟩ := hinv
  refine ⟨?_, ?_, hC3, ?_, hC5, ?_, hC7⟩
  · intro i2 hrel
    rcases memNat_cons_elim hrel with heq | hrelold
    · subst heq
      exact hg
    · exact hC1 i2 hrelold
  · intro i2 a2 hia2 hg2 j b hj hjb hbm
    exact memNat_cons_of _ (hC2 i2 a2 hia2 hg2 j b hj hjb hbm)
  · intro i2 a2 hia2 hp j b hj hjb hbm
    exact memNat_cons_of _ (hC4 i2 a2 hia2 hp j b hj hjb hbm)
  · intro m2 hm2 j b hjb hbm
    exact memNat_cons_of _ (hC6 m2 hm2 j b hjb hbm)

theorem serInv_step {s s2 : SerializerState} {op : SerOp}
    (hinv : serInv s) (hstep : serStep s op = some s2) : serInv s2 := by
  cases op with
  | acquire m =>
    simp only [serStep, Option.some.injEq] at hstep
    subst hstep
    exact serInv_acquire hinv
  | grant i =>
    simp only [serStep] at hstep
    cases hia : s.acqs[i]? with
    | none =>
      rw [hia] at hstep
      cases hstep
    | some a =>
      rw [hia] at hstep
      cases hg : memNat s.granted i with
      | true => simp [hg] at hstep
      | false =>
        cases hpr : prevResolved s a with
        | false => simp [hg, hpr] at hstep
        | true =>
          simp only [hg, hpr, Bool.false_eq_true, if_false, if_true, Option.some.injEq] at hstep
          subst hstep
          exact serInv_grant hinv hia hpr
  | release i =>
    simp only [serStep] at hstep
    cases hia : s.acqs[i]? with
    | none =>
      rw [hia] at hstep
      cases hstep
    | some a =>
      rw [hia] at hstep
      cases hg : memNat s.granted i with
      | false => simp [hg] at hstep
      | true =>
        cases hrel : memNat s.released i with
        | true =>
          simp only [hg, hrel, if_true, Option.some.injEq] at hstep
          subst hstep
          exact hinv
        | false =>
          cases hq : (lookupNatKey s.queueTail a.model == some i) with
          | true =>
            simp only [hg, hrel, hq, Bool.false_eq_true, if_false, if_true,
              Option.some.injEq] at hstep
            subst hstep
            exact serInv_release_erase hinv hia hg (eq_of_beq hq)
          | false =>
            simp only [hg, hrel, hq, Bool.false_eq_true, if_false, if_true,
              Option.some.injEq] at hstep
            subst hstep
            exact serInv_release_keep hinv hg

theorem serRun_inv : ∀ (ops : List SerOp) (s s2 : SerializerState),
    serInv s → serRun s ops = some s2 → serInv s2 := by
  intro ops
  induction ops with
  | nil =>
    intro s s2 hinv h
    simp only [serRun, Option.some.injEq] at h
    subst h
    exact hinv
  | cons op rest ih =>
    intro s s2 hinv h
    simp only [serRun] at h
    cases hst : serStep s op with
    | none =>
      rw [hst] at h
      cases h
    | some s1 =>
      rw [hst] at h
      exact ih s1 s2 (serInv_step hinv hst) h

/-- C8: in every reachable serializer state, execution slots per model
handle are granted strictly in acquisition order — a later acquisition
on the same handle is granted only after every earlier one has released
— so at most one generate/stream call is outstanding per handle at any
time; and a concrete run shows acquisitions on different handles impose
no ordering on each other (both granted with neither released). -/
theorem c8_fifo_execution_slots (ops : List SerOp) (s2 : SerializerState)
    (h : serRun serInit ops = some s2) :
    (∀ (i j : Nat) (a b : Acq), s2.acqs[i]? = some a → s2.acqs[j]? = some b → i < j →
      a.model = b.model → memNat s2.granted j = true → memNat s2.released i = true) ∧
    (∀ (i j : Nat) (a b : Acq), s2.acqs[i]? = some a → s2.acqs[j]? = some b → i ≠ j →
      a.model = b.model →
      ¬(memNat s2.granted i = true ∧ memNat s2.released i = false ∧
        memNat s2.granted j = true ∧ memNat s2.released j = false)) ∧
    serRun serInit [SerOp.acquire 0, SerOp.grant 0, SerOp.acquire 1, SerOp.grant 1] =
      some { acqs := [{ model := 0, prev := none }, { model := 1, prev := none }],
             queueTail := [(0, 0), (1, 1)], granted := [1, 0], released := [] } := by
  have hinv := serRun_inv ops serInit s2 serInv_init h
  obtain ⟨hC1, hC2, hC3, hC4, hC5, hC6, hC7⟩ := hinv
  refine ⟨?_, ?_, ?_⟩
  · intro i j a b hia hjb hij ham hgj
    exact hC2 j b hjb hgj i a hij hia ham
  · intro i j a b hia hjb hij ham hcontra
    obtain ⟨hgi, hri, hgj, hrj⟩ := hcontra
    rcases Nat.lt_trichotomy i j with hlt | heq | hgt
    · have := hC2 j b hjb hgj i a hlt hia ham
      rw [this] at hri
      cases hri
    · exact hij heq
    · have := hC2 i a hia hgi j b hgt hjb ham.symm
      rw [this] at hrj
      cases hrj
  · rfl

/-- Witness for C8: after acquire, acquire, grant, release, grant on one
handle, the first holder is indeed released before the second grant. -/
theorem c8_fifo_execution_slots_witness :
    memNat ({ acqs := [{ model := 5, prev := none }, { model := 5, prev := some 0 }],
              queueTail := [(5, 1)], granted := [1, 0],
              released := [0] } : SerializerState).released 0 = true :=
  (c8_fifo_execution_slots [SerOp.acquire 5, SerOp.acquire 5, SerOp.grant 0, SerOp.release 0, SerOp.grant 1]
    { acqs := [{ model := 5, prev := none }, { model := 5, prev := some 0 }],
      queueTail := [(5, 1)], granted := [1, 0], released := [0] } rfl).1 0 1
    { model := 5, prev := none } { model := 5, prev := some 0 } rfl rfl (by decide) rfl rfl
